import Mathlib

/-!
Verification of the statistical core of arb-oppity against its design notes.

The TypeScript sources are embedded shallowly:
* JavaScript numbers are modelled as rationals (`ℚ`); all arithmetic the
  claims touch (sums, divisions, comparisons, `Math.round`, `Math.floor`)
  is exact at the inputs considered, and divergences are noted in comments.
* `Math.sqrt` forces the standard deviation into `ℝ`; it is kept as a
  separate real-valued function (`computeStd`) so every other field of the
  statistics record stays rational and executable.
* `Date` values are modelled as epoch milliseconds (`ℕ`); `getUTCHours`
  and `getUTCDay` are the arithmetic the JavaScript `Date` methods perform
  on a non-negative epoch timestamp (1 Jan 1970 was a Thursday, day 4).
* JavaScript `Map`/`Record` lookups are modelled as `Option`-valued
  functions; `Array.prototype.sort` (stable, ES2019) is modelled by
  `List.mergeSort`, which is stable.
-/

namespace ArbOppity

/-! ## src/types.ts -/

inductive LiquidityRegime where
  | thick
  | normal
  | thin
  | very_thin
deriving DecidableEq, Repr

/-- `SpreadDataPoint` from src/types.ts (the raw `timestamp` string is
dropped; the derived `hour_of_day` / `day_of_week` / `is_weekend` fields it
determines are kept, exactly as `spread-stats.ts` consumes them). -/
structure SpreadDataPoint where
  market_id : String
  spread_bps : ℚ
  mid_price : ℚ
  bid_depth : ℚ
  ask_depth : ℚ
  hour_of_day : ℕ
  day_of_week : ℕ
  is_weekend : Bool
deriving DecidableEq, Repr

/-- `SpreadStats` from src/types.ts.  The `std_spread_bps` field is
real-valued (`Math.sqrt`), so it is carried by the companion function
`computeStd` below instead of the record. -/
structure SpreadStats where
  group_key : String
  sample_count : ℕ
  mean_spread_bps : ℚ
  median_spread_bps : ℚ
  p90_spread_bps : ℚ
  min_spread_bps : ℚ
  max_spread_bps : ℚ
deriving DecidableEq, Repr

/-! ## src/analysis/spread-stats.ts -/

/-- Ascending sort of the samples: `[...spreads].sort((a, b) => a - b)`. -/
def sortedSpreads (spreads : List ℚ) : List ℚ :=
  spreads.mergeSort (fun a b => decide (a ≤ b))

/-- `spreads.reduce((a, b) => a + b, 0) / n`. -/
def meanOf (spreads : List ℚ) : ℚ :=
  spreads.sum / spreads.length

/-- Median of the ascending-sorted samples (lines 76-78); `x ?? 0` is
`getD _ 0`. -/
def medianOf (spreads : List ℚ) : ℚ :=
  let sorted := sortedSpreads spreads
  let n := spreads.length
  if n % 2 = 0 then
    ((sorted.getD (n / 2 - 1) 0) + (sorted.getD (n / 2) 0)) / 2
  else
    sorted.getD (n / 2) 0

/-- Population variance (line 80): divide by `n`, not `n - 1`. -/
def varianceOf (spreads : List ℚ) : ℚ :=
  (spreads.map (fun x => (x - meanOf spreads) ^ 2)).sum / spreads.length

/-- `Math.floor(n * 0.9)`.  For every sample count the double-precision
product `n * 0.9` rounds to a value whose floor equals `⌊9n/10⌋`, so the
index is exact natural division. -/
def p90IndexOf (n : ℕ) : ℕ :=
  9 * n / 10

/-- `sorted[p90Index] ?? sorted[n - 1] ?? 0` (line 84). -/
def p90Of (spreads : List ℚ) : ℚ :=
  let sorted := sortedSpreads spreads
  let n := spreads.length
  sorted.getD (p90IndexOf n) (sorted.getD (n - 1) 0)

/-- `computeStats` (lines 58-96): empty input returns the all-zero record;
otherwise the descriptive statistics of the sorted samples. -/
def computeStats (spreads : List ℚ) (groupKey : String) : SpreadStats :=
  if spreads = [] then
    ⟨groupKey, 0, 0, 0, 0, 0, 0⟩
  else
    ⟨groupKey, spreads.length, meanOf spreads, medianOf spreads, p90Of spreads,
      (sortedSpreads spreads).getD 0 0,
      (sortedSpreads spreads).getD (spreads.length - 1) 0⟩

/-- The `std_spread_bps` field of `computeStats`: `0` on the empty early
return (line 65), `Math.sqrt(variance)` otherwise (line 81). -/
noncomputable def computeStd (spreads : List ℚ) : ℝ :=
  if spreads = [] then 0 else Real.sqrt (varianceOf spreads)

/-- `computeZScore` (lines 229-232). -/
def computeZScore (value mean std : ℚ) : ℚ :=
  if std = 0 then 0 else (value - mean) / std

/-- The hour buckets built by `groupByHour` (lines 101-114): the map is
pre-seeded with keys 0-23, and a point is appended only when its
`hour_of_day` hits an existing key. -/
def groupByHour (data : List SpreadDataPoint) (h : ℕ) : List SpreadDataPoint :=
  if h < 24 then data.filter (fun p => p.hour_of_day == h) else []

/-- The day-of-week buckets built by `groupByDayOfWeek` (lines 119-132). -/
def groupByDayOfWeek (data : List SpreadDataPoint) (d : ℕ) : List SpreadDataPoint :=
  if d < 7 then data.filter (fun p => p.day_of_week == d) else []

/-- `hour_${h.toString().padStart(2, '0')}` (line 144). -/
def hourKey (h : ℕ) : String :=
  "hour_" ++ (if h < 10 then "0" ++ toString h else toString h)

def dayNames : List String :=
  ["sun", "mon", "tue", "wed", "thu", "fri", "sat"]

/-- `dow_${dayNames[d]}` (line 161). -/
def dowKey (d : ℕ) : String :=
  "dow_" ++ dayNames.getD d ""

/-- `statsByHour` (lines 137-148): one `computeStats` entry per hour 0-23,
in ascending hour order, including empty buckets. -/
def statsByHour (data : List SpreadDataPoint) : List SpreadStats :=
  (List.range 24).map (fun h =>
    computeStats ((groupByHour data h).map (fun p => p.spread_bps)) (hourKey h))

/-- `statsByDayOfWeek` (lines 153-165). -/
def statsByDayOfWeek (data : List SpreadDataPoint) : List SpreadStats :=
  (List.range 7).map (fun d =>
    computeStats ((groupByDayOfWeek data d).map (fun p => p.spread_bps)) (dowKey d))

/-- Modelled from the spec: the source computes no 75th percentile (only
`p90_spread_bps` exists in src/), while the spec's `DescriptiveStats`
lists `p75` with the percentile policy "sort ascending, index =
`floor(n * q)`, clamp to `[0, n-1]`" (spec section 4.2). -/
def p75Of (spreads : List ℚ) : ℚ :=
  (sortedSpreads spreads).getD (min (3 * spreads.length / 4) (spreads.length - 1)) 0

/-! ## src/tools/check-liquidity.ts -/

/-- `REGIME_THRESHOLDS` (lines 52-56). -/
def veryThinZscore : ℚ := 5 / 2
def thinZscore : ℚ := 3 / 2
def thickZscore : ℚ := -1

/-- `computeRegime` (lines 88-93): thresholds tested in priority order. -/
def computeRegime (spreadZscore : ℚ) : LiquidityRegime :=
  if spreadZscore ≥ veryThinZscore then .very_thin
  else if spreadZscore ≥ thinZscore then .thin
  else if spreadZscore ≤ thickZscore then .thick
  else .normal

/-- `new Date(t).getUTCHours()` for an epoch-millisecond timestamp. -/
def getUTCHours (t : ℕ) : ℕ :=
  t / 3600000 % 24

/-- `new Date(t).getUTCDay()` (0 = Sunday); epoch day 0 was a Thursday. -/
def getUTCDay (t : ℕ) : ℕ :=
  (t / 86400000 + 4) % 7

/-- `(utcHour - 5 + 24) % 24` — EST as a fixed UTC-5 offset. -/
def getHourEST (t : ℕ) : ℕ :=
  (getUTCHours t + 24 - 5) % 24

/-- `isOffHours` (lines 107-110): true iff the EST hour is in [0, 6). -/
def isOffHours (t : ℕ) : Bool :=
  getHourEST t < 6

/-- `isWeekendNow` (lines 115-118). -/
def isWeekendNow (t : ℕ) : Bool :=
  getUTCDay t == 0 || getUTCDay t == 6

/-- `generateRecommendation` (lines 123-143). -/
def generateRecommendation (regime : LiquidityRegime) (offHours weekend : Bool) :
    String :=
  if regime = .very_thin then
    "🎯 Excellent conditions - spreads are very wide, check for cross-venue arb immediately"
  else if regime = .thin then
    "✅ Good conditions - spreads are wider than normal, favorable for arb entry"
  else if regime = .thick then
    "⏸️ Tight spreads - liquidity is high, wait for better entry"
  else if offHours || weekend then
    "👀 Normal spreads during off-hours - monitor for widening"
  else
    "⏳ Normal conditions - spreads may widen during off-hours (12am-6am EST) or weekends"

/-- The orderbook record returned by the Replay Labs client. -/
structure Orderbook where
  mid_price : ℚ
  spread : ℚ
  spread_bps : ℚ
  bid_depth : ℚ
  ask_depth : ℚ
deriving DecidableEq, Repr

/-- The historical-baseline record returned by `getHistoricalStats`. -/
structure HistoricalStats where
  mean_spread_bps : ℚ
  std_spread_bps : ℚ
  mean_depth : ℚ
  std_depth : ℚ
deriving DecidableEq, Repr

/-- `CheckLiquidityOutput` (schema, lines 20-43); the ISO timestamp string
is represented by the epoch-millisecond clock reading it serialises. -/
structure CheckLiquidityOutput where
  market_id : String
  venue : String
  timestamp : ℕ
  regime : LiquidityRegime
  spread_bps : ℚ
  spread_zscore : ℚ
  bid_depth : ℚ
  ask_depth : ℚ
  depth_zscore : ℚ
  hour_est : ℕ
  is_off_hours : Bool
  is_weekend : Bool
  is_favorable : Bool
  recommendation : String
deriving DecidableEq, Repr

/-- `checkLiquidity` (lines 148-202), with the two awaited fetches replaced
by their results (`orderbook`, `stats`) and the ambient clock made an
explicit argument `now`, read once. -/
def checkLiquidity (marketId venue : String) (orderbook : Orderbook)
    (stats : HistoricalStats) (now : ℕ) : CheckLiquidityOutput :=
  let spreadZscore :=
    if stats.std_spread_bps > 0 then
      (orderbook.spread_bps - stats.mean_spread_bps) / stats.std_spread_bps
    else 0
  let totalDepth := orderbook.bid_depth + orderbook.ask_depth
  let depthZscore :=
    if stats.std_depth > 0 then (totalDepth - stats.mean_depth) / stats.std_depth
    else 0
  let regime := computeRegime spreadZscore
  let offHours := isOffHours now
  let weekend := isWeekendNow now
  let isFavorable := decide (regime = .thin) || decide (regime = .very_thin)
  ⟨marketId, venue, now, regime, orderbook.spread_bps, spreadZscore,
    orderbook.bid_depth, orderbook.ask_depth, depthZscore, getHourEST now,
    offHours, weekend, isFavorable, generateRecommendation regime offHours weekend⟩

/-- The fields of the spec's `RegimeResult` that `checkLiquidity` computes:
pure functions of the observation and the baseline. -/
structure RegimeResult where
  regime : LiquidityRegime
  spread_zscore : ℚ
  depth_zscore : ℚ
  is_favorable : Bool
deriving DecidableEq, Repr

def regimeResultOf (out : CheckLiquidityOutput) : RegimeResult :=
  ⟨out.regime, out.spread_zscore, out.depth_zscore, out.is_favorable⟩

/-! ## src/tools/scan-opportunities.ts -/

/-- `calculateScore` (lines 153-169); `Math.round` is round-half-up, which
is Mathlib's `round` (`round x = ⌊x + 1/2⌋`). -/
def calculateScore (netProfitPct spreadPercentile bidDepth askDepth : ℚ) : ℤ :=
  let profitScore := min (netProfitPct * 10) 50
  let percentileScore := spreadPercentile / 100 * 30
  let depthScore := min ((bidDepth + askDepth) / 10000) 1 * 20
  round (profitScore + percentileScore + depthScore)

/-- One element of `getHistoricalSpreads`'s result: a timestamp (epoch
milliseconds) and a spread percentage. -/
structure SpreadObservation where
  timestamp : ℕ
  spread_pct : ℚ
deriving DecidableEq, Repr

/-- One value of `spread_by_hour` / `spread_by_dow`: the source stores
`{ mean, std, sample_count }` with `std = Math.sqrt var`; the rational
variance is carried instead of its real square root. -/
structure BucketStat where
  mean : ℚ
  var : ℚ
  sample_count : ℕ
deriving DecidableEq, Repr

def bucketStatOf (xs : List ℚ) : BucketStat :=
  ⟨meanOf xs, varianceOf xs, xs.length⟩

/-- The spreads landing in EST-hour bucket `h` (lines 373-379). -/
def hourBucket (data : List SpreadObservation) (h : ℕ) : List ℚ :=
  (data.filter (fun d => getHourEST d.timestamp == h)).map (fun d => d.spread_pct)

/-- The spreads landing in day-of-week bucket `d` (lines 393-399). -/
def dowBucket (data : List SpreadObservation) (d : ℕ) : List ℚ :=
  (data.filter (fun x => getUTCDay x.timestamp == d)).map (fun x => x.spread_pct)

/-- The `spreadByHour` record (lines 382-390): an entry is written only
when the bucket is in range and non-empty, so lookups are `Option`-valued. -/
def spreadByHour (data : List SpreadObservation) : ℕ → Option BucketStat :=
  fun h =>
    if h < 24 ∧ hourBucket data h ≠ [] then some (bucketStatOf (hourBucket data h))
    else none

/-- The `spreadByDow` record (lines 401-409). -/
def spreadByDow (data : List SpreadObservation) : ℕ → Option BucketStat :=
  fun d =>
    if d < 7 ∧ dowBucket data d ≠ [] then some (bucketStatOf (dowBucket data d))
    else none

/-- `Object.entries(spreadByHour)`: the populated hour buckets in ascending
key order (integer-like keys enumerate numerically in JavaScript). -/
def hourEntries (data : List SpreadObservation) : List (ℕ × BucketStat) :=
  (List.range 24).filterMap (fun h =>
    if hourBucket data h ≠ [] then some (h, bucketStatOf (hourBucket data h))
    else none)

def dowEntries (data : List SpreadObservation) : List (ℕ × BucketStat) :=
  (List.range 7).filterMap (fun d =>
    if dowBucket data d ≠ [] then some (d, bucketStatOf (dowBucket data d))
    else none)

/-- The comparator `(_, a), (_, b) => b.mean - a.mean`: `a` sorts no later
than `b` exactly when `b.mean ≤ a.mean`; `Array.prototype.sort` is stable. -/
def meanDescLE (a b : ℕ × BucketStat) : Bool :=
  decide (b.2.mean ≤ a.2.mean)

/-- The hour entries sorted by descending mean (line 412-413). -/
def rankedHourEntries (data : List SpreadObservation) : List (ℕ × BucketStat) :=
  (hourEntries data).mergeSort meanDescLE

def rankedDowEntries (data : List SpreadObservation) : List (ℕ × BucketStat) :=
  (dowEntries data).mergeSort meanDescLE

/-- `best_hours` (lines 412-415): `.slice(0, 5).map(([h]) => parseInt(h))`. -/
def bestHours (data : List SpreadObservation) : List ℕ :=
  ((rankedHourEntries data).take 5).map (fun e => e.1)

/-- `best_days` (lines 418-421). -/
def bestDays (data : List SpreadObservation) : List ℕ :=
  ((rankedDowEntries data).take 3).map (fun e => e.1)

/-- `MarketStats` (lines 116-130); `std_spread_pct` is carried as its
square `var_spread_pct` (see `BucketStat`). -/
structure MarketStats where
  market_id : String
  mean_spread_pct : ℚ
  var_spread_pct : ℚ
  spread_by_hour : ℕ → Option BucketStat
  spread_by_dow : ℕ → Option BucketStat
  best_hours : List ℕ
  best_days : List ℕ

/-- `computeMarketStats` (lines 367-432).  On empty `data` the JavaScript
global mean and std are `NaN` (`0/0`); the rational model yields `0` there,
and no theorem below depends on the global fields of an empty run. -/
def computeMarketStats (marketId : String) (data : List SpreadObservation) :
    MarketStats :=
  ⟨marketId, meanOf (data.map (fun d => d.spread_pct)),
    varianceOf (data.map (fun d => d.spread_pct)),
    spreadByHour data, spreadByDow data, bestHours data, bestDays data⟩

/-- `hoursUntil` for one candidate hour (lines 455-456):
`hour - currentHourEST`, remapped by `+24` when not positive. -/
def hoursUntilOf (hour currentHourEST : ℤ) : ℤ :=
  let d := hour - currentHourEST
  if d ≤ 0 then d + 24 else d

/-- The `{ hour, hoursUntil }` accumulator of `findNextBestHour`; `start`
is `now + hoursUntil` hours, so `hoursUntil` carries the window. -/
structure BestHourMatch where
  hour : ℤ
  hoursUntil : ℤ
deriving DecidableEq, Repr

/-- `findNextBestHour` (lines 448-465): a fold over the candidate hours,
seeded with `{ hour: bestHours[0] ?? 0, hoursUntil: 24 }`, updating when a
candidate fits the horizon and beats the incumbent. -/
def findNextBestHour (hs : List ℤ) (currentHourEST hoursAhead : ℤ) :
    BestHourMatch :=
  hs.foldl
    (fun bm h =>
      let hu := hoursUntilOf h currentHourEST
      if hu ≤ hoursAhead ∧ hu < bm.hoursUntil then ⟨h, hu⟩ else bm)
    ⟨hs.headD 0, 24⟩

/-- Modelled from the spec (section 4.6), for comparison with the code:
"select the candidate with the smallest `hoursUntil` that is
`≤ horizonHours`; if no candidate fits the horizon, result is `none`". -/
def findNextBestHourSpec (hs : List ℤ) (currentHourEST hoursAhead : ℤ) :
    Option BestHourMatch :=
  let fits := hs.filterMap (fun h =>
    let hu := hoursUntilOf h currentHourEST
    if hu ≤ hoursAhead then some (BestHourMatch.mk h hu) else none)
  match fits with
  | [] => none
  | x :: rest =>
      some (rest.foldl (fun a b => if b.hoursUntil < a.hoursUntil then b else a) x)

/-- Modelled from the spec (section 4.3), for comparison with the code:
ranking "sorted by descending mean spread (primary key) — ties broken by
descending sample count, then by ascending bucket index". -/
def claimedRankLE (a b : ℕ × BucketStat) : Bool :=
  decide (b.2.mean < a.2.mean ∨
    (a.2.mean = b.2.mean ∧
      (b.2.sample_count < a.2.sample_count ∨
        (a.2.sample_count = b.2.sample_count ∧ a.1 ≤ b.1))))

/-- The hour ranking the spec describes, applied to the code's entries. -/
def claimedBestHours (data : List SpreadObservation) : List ℕ :=
  (((hourEntries data).mergeSort claimedRankLE).take 5).map (fun e => e.1)

/-! ## Helper lemmas -/

theorem mergeSort_pair {α : Type} (le : α → α → Bool) (a b : α) :
    [a, b].mergeSort le = if le a b then [a, b] else [b, a] := by
  rw [List.mergeSort]
  simp [List.splitInTwo, List.merge]

/-- A fold whose step never changes the accumulator returns the seed. -/
theorem foldl_fixed {α β : Type} (f : β → α → β) :
    ∀ (l : List α), (∀ acc, ∀ a ∈ l, f acc a = acc) → ∀ b, l.foldl f b = b
  | [], _, _ => rfl
  | x :: t, h, b => by
    rw [List.foldl_cons, h b x (by simp)]
    exact foldl_fixed f t (fun acc a ha => h acc a (by simp [ha])) b

/-- `(computeStats xs k).group_key = k`. -/
theorem computeStats_group_key (xs : List ℚ) (k : String) :
    (computeStats xs k).group_key = k := by
  unfold computeStats
  split <;> rfl

/-- `(computeStats xs k).sample_count = xs.length`. -/
theorem computeStats_sample_count (xs : List ℚ) (k : String) :
    (computeStats xs k).sample_count = xs.length := by
  unfold computeStats
  split
  · simp [*]
  · rfl

/-- Two distinct members of a strictly `S`-ordered list occur as a pair
sublist when related by `S` (with `S` asymmetric). -/
theorem pair_sublist_of_mem {α : Type} {S : α → α → Prop}
    (asymm : ∀ x y, S x y → ¬ S y x) {a b : α} (hab : S a b) :
    ∀ {l : List α}, l.Pairwise S → a ∈ l → b ∈ l → List.Sublist [a, b] l
  | [], _, ha, _ => absurd ha (List.not_mem_nil a)
  | x :: t, hl, ha, hb => by
    rcases List.pairwise_cons.mp hl with ⟨hx, ht⟩
    rcases List.mem_cons.mp ha with rfl | ha2
    · rcases List.mem_cons.mp hb with rfl | hb2
      · exact absurd hab (asymm _ _ hab)
      · exact (List.singleton_sublist.mpr hb2).cons₂ _
    · rcases List.mem_cons.mp hb with rfl | hb2
      · exact absurd (hx _ ha2) (asymm _ _ hab)
      · exact (pair_sublist_of_mem asymm hab ht ha2 hb2).cons _

/-- In a duplicate-free list, `[a, b]` and `[b, a]` cannot both be
sublists unless `a = b`. -/
theorem eq_of_pair_sublists {α : Type} :
    ∀ {l : List α}, l.Nodup → ∀ {a b : α}, List.Sublist [a, b] l → List.Sublist [b, a] l → a = b
  | [], _, _, _, h1, _ => by simp at h1
  | x :: t, hnd, a, b, h1, h2 => by
    rcases List.nodup_cons.mp hnd with ⟨hx, hnt⟩
    cases h1 with
    | cons _ h1t =>
      cases h2 with
      | cons _ h2t => exact eq_of_pair_sublists hnt h1t h2t
      | cons₂ _ h2t => exact absurd (h1t.subset (by simp)) hx
    | cons₂ _ h1t =>
      cases h2 with
      | cons _ h2t => exact absurd (h2t.subset (by simp)) hx
      | cons₂ _ h2t => rfl

/-! ## Claim theorems -/

/-- C1: regime classification evaluates the z-score thresholds in priority
order — `very_thin` iff `z ≥ 2.5`, `thin` iff `1.5 ≤ z < 2.5`, `thick` iff
`z ≤ -1 < 1.5`, else `normal`; in particular `z = 2.5` is `very_thin`
(inclusive bound) and `z = 1.49999` is never `thin`. -/
theorem computeRegime_priority (z : ℚ) :
    (computeRegime z = .very_thin ↔ veryThinZscore ≤ z)
    ∧ (computeRegime z = .thin ↔ thinZscore ≤ z ∧ z < veryThinZscore)
    ∧ (computeRegime z = .thick ↔ z ≤ thickZscore ∧ z < thinZscore)
    ∧ (computeRegime z = .normal ↔ thickZscore < z ∧ z < thinZscore)
    ∧ computeRegime veryThinZscore = .very_thin
    ∧ computeRegime (149999 / 100000) ≠ .thin := by
  have c5 : computeRegime veryThinZscore = .very_thin := by
    norm_num [computeRegime, veryThinZscore, thinZscore, thickZscore]
  have c6 : computeRegime (149999 / 100000) ≠ .thin := by
    norm_num [computeRegime, veryThinZscore, thinZscore, thickZscore]
    decide
  refine ⟨?_, ?_, ?_, ?_, c5, c6⟩ <;>
    (unfold computeRegime veryThinZscore thinZscore thickZscore;
     split_ifs with h1 h2 h3 <;> simp_all <;> try linarith) <;>
    intro h <;> linarith

/-- C1 witness: the theorem applied at the boundary input `z = 5/2`. -/
theorem computeRegime_priority_witness :
    computeRegime (5 / 2) = .very_thin ↔ veryThinZscore ≤ 5 / 2 :=
  (computeRegime_priority (5 / 2)).1

/-- C4: statistics over an empty sample are the all-zero record (including
the standard deviation), produced by the explicit early return rather than
an error or `NaN`. -/
theorem computeStats_empty (k : String) :
    computeStats [] k = ⟨k, 0, 0, 0, 0, 0, 0⟩ ∧ computeStd [] = 0 := by
  exact ⟨rfl, by simp [computeStd]⟩

/-- C6: the z-score is `(value - mean) / std` for nonzero `std`, is defined
as exactly `0` when `std = 0`, and is `0` at `value = mean`; the inline
z-score of `checkLiquidity` agrees with `computeZScore` whenever the
baseline standard deviation is non-negative. -/
theorem computeZScore_spec (v m s : ℚ) :
    (s ≠ 0 → computeZScore v m s = (v - m) / s)
    ∧ (s = 0 → computeZScore v m s = 0)
    ∧ computeZScore m m s = 0
    ∧ (∀ (mid ven : String) (ob : Orderbook) (st : HistoricalStats) (now : ℕ),
        0 ≤ st.std_spread_bps →
        (checkLiquidity mid ven ob st now).spread_zscore
          = computeZScore ob.spread_bps st.mean_spread_bps st.std_spread_bps) := by
  refine ⟨fun h => by simp [computeZScore, h], fun h => by simp [computeZScore, h],
    ?_, ?_⟩
  · unfold computeZScore
    split <;> simp
  · intro mid ven ob st now hst
    rcases lt_or_eq_of_le hst with hpos | hzero
    · simp [checkLiquidity, computeZScore, hpos, ne_of_gt hpos]
    · simp [checkLiquidity, computeZScore, Eq.symm hzero]

/-- C6 witness: the theorem applied at `value = 5`, `mean = 3`, `std = 2`,
each hypothesis discharged concretely. -/
theorem computeZScore_spec_witness :
    computeZScore 5 3 2 = (5 - 3) / 2 ∧ computeZScore 3 3 2 = 0
    ∧ (checkLiquidity "m" "KALSHI" ⟨0, 0, 7, 0, 0⟩ ⟨3, 2, 0, 0⟩ 0).spread_zscore
        = computeZScore 7 3 2 :=
  ⟨(computeZScore_spec 5 3 2).1 (by norm_num),
   (computeZScore_spec 3 3 2).2.2.1,
   (computeZScore_spec 7 3 2).2.2.2 "m" "KALSHI" ⟨0, 0, 7, 0, 0⟩ ⟨3, 2, 0, 0⟩ 0
     (by norm_num)⟩

/-- C9: the regime-relevant fields of the `checkLiquidity` output (regime,
spread z-score, depth z-score, favourability) are a pure, deterministic
function of the observation and the baseline: they do not depend on the
ambient clock reading, so two runs on the same inputs agree field by
field (the embedding is a total function, so no external state exists to
be modified). -/
theorem checkLiquidity_deterministic (mid ven : String) (ob : Orderbook)
    (st : HistoricalStats) (t₁ t₂ : ℕ) :
    regimeResultOf (checkLiquidity mid ven ob st t₁)
      = regimeResultOf (checkLiquidity mid ven ob st t₂) := rfl

/-- C10: for even sample counts the median is the arithmetic mean of the
two middle sorted elements (indices `n/2 - 1` and `n/2`), for odd counts
the middle sorted element; in particular `median [1, 2] = 3/2`, a value
occurring in no sample. -/
theorem computeStats_median_rule (xs : List ℚ) (k : String) :
    (xs.length % 2 = 0 →
      (computeStats xs k).median_spread_bps
        = ((sortedSpreads xs).getD (xs.length / 2 - 1) 0
            + (sortedSpreads xs).getD (xs.length / 2) 0) / 2)
    ∧ (xs.length % 2 = 1 →
      (computeStats xs k).median_spread_bps
        = (sortedSpreads xs).getD (xs.length / 2) 0)
    ∧ (computeStats [1, 2] "g").median_spread_bps = 3 / 2
    ∧ (3 / 2 : ℚ) ∉ ([1, 2] : List ℚ) := by
  have hmed : (computeStats [1, 2] "g").median_spread_bps = 3 / 2 := by
    rw [computeStats, if_neg (by simp)]
    norm_num [medianOf, sortedSpreads, mergeSort_pair]
  refine ⟨?_, ?_, hmed, by norm_num⟩ <;> intro hpar
  · by_cases hne : xs = []
    · subst hne
      simp [computeStats, sortedSpreads]
    · rw [computeStats, if_neg hne]
      simp only [medianOf, if_pos hpar]
  · have hne : xs ≠ [] := by
      intro h
      rw [h] at hpar
      simp at hpar
    rw [computeStats, if_neg hne]
    have : ¬ xs.length % 2 = 0 := by omega
    simp only [medianOf, if_neg this]

/-- C10 witness: the theorem applied to the odd-length sample `[3, 1, 2]`. -/
theorem computeStats_median_rule_witness :
    ([3, 1, 2] : List ℚ).length % 2 = 1
    ∧ (computeStats [3, 1, 2] "w").median_spread_bps
        = (sortedSpreads [3, 1, 2]).getD (([3, 1, 2] : List ℚ).length / 2) 0 :=
  ⟨by norm_num, (computeStats_median_rule [3, 1, 2] "w").2.1 (by norm_num)⟩

/-- C2 counterexample: with candidate hours `[3]`, current EST hour `10`
and horizon `0`, no candidate fits (`hoursUntil = 17 > 0`), the
spec-modelled predictor returns `none`, yet the code returns the definite
fallback window `{hour 3, hoursUntil 24}` — a window outside the horizon,
not "no prediction". -/
theorem findNextBestHour_none_cex :
    findNextBestHourSpec [3] 10 0 = none
    ∧ findNextBestHour [3] 10 0 = ⟨3, 24⟩
    ∧ ¬ (findNextBestHour [3] 10 0).hoursUntil ≤ 0 := by decide

/-- C2 (amended): when no candidate hour has `hoursUntil ≤ horizonHours`,
`findNextBestHour` does not report "no window": it returns the fallback
`{hour: bestHours[0] ?? 0, hoursUntil: 24}` (while the spec-modelled
predictor returns `none`); with `horizonHours = 0`, in-range candidate
hours and a current hour `≤ 23`, this fallback is always returned. -/
theorem findNextBestHour_no_fit (hs : List ℤ) (cur horizon : ℤ) :
    ((∀ x ∈ hs, ¬ hoursUntilOf x cur ≤ horizon) →
      findNextBestHour hs cur horizon = ⟨hs.headD 0, 24⟩
      ∧ findNextBestHourSpec hs cur horizon = none)
    ∧ ((∀ x ∈ hs, 0 ≤ x) → cur ≤ 23 →
      findNextBestHour hs cur 0 = ⟨hs.headD 0, 24⟩) := by
  have key : ∀ hz : ℤ, (∀ x ∈ hs, ¬ hoursUntilOf x cur ≤ hz) →
      findNextBestHour hs cur hz = ⟨hs.headD 0, 24⟩ := by
    intro hz h
    unfold findNextBestHour
    apply foldl_fixed
    intro acc a ha
    rw [if_neg]
    intro hc
    exact h a ha hc.1
  constructor
  · intro h
    refine ⟨key horizon h, ?_⟩
    have hnil : (hs.filterMap (fun x =>
        let hu := hoursUntilOf x cur
        if hu ≤ horizon then some (BestHourMatch.mk x hu) else none)) = [] := by
      rw [List.filterMap_eq_nil_iff]
      intro a ha
      simp only [if_neg (h a ha)]
    simp only [findNextBestHourSpec, hnil]
  · intro hge hcur
    apply key 0
    intro x hx
    have h0 : 0 ≤ x := hge x hx
    unfold hoursUntilOf
    dsimp only
    split <;> omega

/-- C2 witness: the amended theorem applied to candidate hours `[5]`,
current hour `2`, horizon `1` (the only `hoursUntil` is `3 > 1`). -/
theorem findNextBestHour_no_fit_witness :
    (∀ x ∈ ([5] : List ℤ), ¬ hoursUntilOf x 2 ≤ 1)
    ∧ (findNextBestHour [5] 2 1 = ⟨5, 24⟩ ∧ findNextBestHourSpec [5] 2 1 = none) :=
  ⟨by decide, (findNextBestHour_no_fit [5] 2 1).1 (by decide)⟩

/-- C7 counterexample: with a negative net profit the score leaves
`[0, 100]` — at `netProfitPct = -10` (percentile 100, deep books) the
score is `-50`. -/
theorem calculateScore_negative_cex :
    calculateScore (-10) 100 100000 100000 = -50
    ∧ calculateScore (-10) 100 100000 100000 < 0 := by
  constructor <;> norm_num [calculateScore, round_eq]

/-- C7 (amended): for `netProfitPct ≥ 0` (as in `scanNow`, which only
scores candidates whose net profit passed a positive threshold),
`spreadPercentile ∈ [0, 100]` and non-negative depths, the score equals
`round(min(netProfitPct·10, 50) + spreadPercentile/100·30 +
min((bidDepth+askDepth)/10000, 1)·20)` and lies in `[0, 100]`. -/
theorem calculateScore_bounds (p perc bd ad : ℚ) (hp : 0 ≤ p) (h0 : 0 ≤ perc)
    (h100 : perc ≤ 100) (hb : 0 ≤ bd) (ha : 0 ≤ ad) :
    calculateScore p perc bd ad
      = round (min (p * 10) 50 + perc / 100 * 30 + min ((bd + ad) / 10000) 1 * 20)
    ∧ 0 ≤ calculateScore p perc bd ad
    ∧ calculateScore p perc bd ad ≤ 100 := by
  have e1 : (0 : ℚ) ≤ min (p * 10) 50 := le_min (by linarith) (by norm_num)
  have e2 : min (p * 10) 50 ≤ 50 := min_le_right _ _
  have e3 : (0 : ℚ) ≤ perc / 100 * 30 :=
    mul_nonneg (div_nonneg h0 (by norm_num)) (by norm_num)
  have e4 : perc / 100 * 30 ≤ 30 := by
    have hd : perc / 100 ≤ 1 := by
      rw [div_le_one (by norm_num : (0 : ℚ) < 100)]
      exact h100
    calc perc / 100 * 30 ≤ 1 * 30 := mul_le_mul_of_nonneg_right hd (by norm_num)
    _ = 30 := by norm_num
  have e5 : (0 : ℚ) ≤ min ((bd + ad) / 10000) 1 * 20 :=
    mul_nonneg (le_min (div_nonneg (by linarith) (by norm_num)) (by norm_num))
      (by norm_num)
  have e6 : min ((bd + ad) / 10000) 1 * 20 ≤ 20 := by
    calc min ((bd + ad) / 10000) 1 * 20
        ≤ 1 * 20 := mul_le_mul_of_nonneg_right (min_le_right _ _) (by norm_num)
    _ = 20 := by norm_num
  refine ⟨rfl, ?_, ?_⟩
  · show (0 : ℤ) ≤ round (min (p * 10) 50 + perc / 100 * 30 + min ((bd + ad) / 10000) 1 * 20)
    rw [round_eq]
    apply Int.le_floor.mpr
    push_cast
    linarith
  · show round (min (p * 10) 50 + perc / 100 * 30 + min ((bd + ad) / 10000) 1 * 20) ≤ 100
    rw [round_eq]
    have hle : min (p * 10) 50 + perc / 100 * 30 + min ((bd + ad) / 10000) 1 * 20 + 1 / 2
        ≤ (201 : ℚ) / 2 := by linarith
    calc ⌊min (p * 10) 50 + perc / 100 * 30 + min ((bd + ad) / 10000) 1 * 20 + 1 / 2⌋
        ≤ ⌊(201 : ℚ) / 2⌋ := Int.floor_le_floor hle
    _ = 100 := by norm_num [Int.floor_eq_iff]

/-- C7 witness: the amended theorem applied at
`(netProfitPct, percentile, bidDepth, askDepth) = (1, 50, 1000, 1000)`. -/
theorem calculateScore_bounds_witness :
    (0 : ℚ) ≤ 1
    ∧ (calculateScore 1 50 1000 1000
        = round (min ((1 : ℚ) * 10) 50 + 50 / 100 * 30
            + min (((1000 : ℚ) + 1000) / 10000) 1 * 20)
      ∧ 0 ≤ calculateScore 1 50 1000 1000 ∧ calculateScore 1 50 1000 1000 ≤ 100) :=
  ⟨by norm_num, calculateScore_bounds 1 50 1000 1000 (by norm_num) (by norm_num)
    (by norm_num) (by norm_num) (by norm_num)⟩

/-- C3 counterexample: `computeMarketStats` on a run with one observation
(at EST hour 0) has no `spread_by_hour` entry for the in-range bucket 3 —
a lookup by an in-range bucket key misses. -/
theorem spreadByHour_missing_cex :
    (computeMarketStats "m" [⟨18000000, 2⟩]).spread_by_hour 3 = none
    ∧ 3 < 24 := by
  constructor <;> decide

/-- C3 (amended): `statsByHour` / `statsByDayOfWeek` do emit an entry for
every in-range bucket (24 hours, 7 days), with the explicit zero-stats
record when the bucket is empty; `computeMarketStats`, however, stores an
hour / day entry exactly when the bucket is in range and has at least one
sample, so its lookups need (and in `predict` use) a missing-key
fallback. -/
theorem bucket_presence (data : List SpreadDataPoint) (obs : List SpreadObservation)
    (mid : String) (h d : ℕ) :
    (statsByHour data).length = 24
    ∧ (h < 24 → ∃ s ∈ statsByHour data, s.group_key = hourKey h
        ∧ s.sample_count = (groupByHour data h).length
        ∧ (groupByHour data h = [] → s = ⟨hourKey h, 0, 0, 0, 0, 0, 0⟩))
    ∧ (statsByDayOfWeek data).length = 7
    ∧ (d < 7 → ∃ s ∈ statsByDayOfWeek data, s.group_key = dowKey d
        ∧ s.sample_count = (groupByDayOfWeek data d).length
        ∧ (groupByDayOfWeek data d = [] → s = ⟨dowKey d, 0, 0, 0, 0, 0, 0⟩))
    ∧ ((computeMarketStats mid obs).spread_by_hour h = none
        ↔ 24 ≤ h ∨ hourBucket obs h = [])
    ∧ ((computeMarketStats mid obs).spread_by_dow d = none
        ↔ 7 ≤ d ∨ dowBucket obs d = []) := by
  refine ⟨by simp [statsByHour], ?_, by simp [statsByDayOfWeek], ?_, ?_, ?_⟩
  · intro hh
    refine ⟨computeStats ((groupByHour data h).map (fun p => p.spread_bps)) (hourKey h),
      List.mem_map_of_mem _ (List.mem_range.mpr hh), computeStats_group_key _ _, ?_, ?_⟩
    · rw [computeStats_sample_count, List.length_map]
    · intro hemp
      rw [hemp]
      rfl
  · intro hd
    refine ⟨computeStats ((groupByDayOfWeek data d).map (fun p => p.spread_bps)) (dowKey d),
      List.mem_map_of_mem _ (List.mem_range.mpr hd), computeStats_group_key _ _, ?_, ?_⟩
    · rw [computeStats_sample_count, List.length_map]
    · intro hemp
      rw [hemp]
      rfl
  · show spreadByHour obs h = none ↔ 24 ≤ h ∨ hourBucket obs h = []
    unfold spreadByHour
    split_ifs with hc
    · simp only [iff_false_intro (Option.some_ne_none _), false_iff]
      push_neg
      exact hc
    · simp only [true_iff]
      rcases not_and_or.mp hc with h1 | h2
      · exact Or.inl (not_lt.mp h1)
      · exact Or.inr (not_not.mp h2)
  · show spreadByDow obs d = none ↔ 7 ≤ d ∨ dowBucket obs d = []
    unfold spreadByDow
    split_ifs with hc
    · simp only [iff_false_intro (Option.some_ne_none _), false_iff]
      push_neg
      exact hc
    · simp only [true_iff]
      rcases not_and_or.mp hc with h1 | h2
      · exact Or.inl (not_lt.mp h1)
      · exact Or.inr (not_not.mp h2)

/-- C3 witness: the amended theorem applied at bucket 3 of an empty run
(the bucket is empty, and the explicit zero-stats entry is present). -/
theorem bucket_presence_witness :
    3 < 24
    ∧ ∃ s ∈ statsByHour [], s.group_key = hourKey 3
        ∧ s.sample_count = (groupByHour [] 3).length
        ∧ (groupByHour [] 3 = [] → s = ⟨hourKey 3, 0, 0, 0, 0, 0, 0⟩) :=
  ⟨by norm_num, (bucket_presence [] [] "m" 3 0).2.1 (by norm_num)⟩

/-! ### Sorted-sample order (for the descriptive-statistics claims) -/

theorem getD_of_lt {α : Type} (l : List α) (n : ℕ) (d : α) (h : n < l.length) :
    l.getD n d = l[n] := by
  rw [List.getD_eq_getElem?_getD, List.getElem?_eq_getElem h]
  rfl

theorem sortedSpreads_length (xs : List ℚ) :
    (sortedSpreads xs).length = xs.length := by
  simp [sortedSpreads]

theorem sortedSpreads_pairwise (xs : List ℚ) :
    (sortedSpreads xs).Pairwise (· ≤ ·) := by
  unfold sortedSpreads
  refine List.Pairwise.imp (fun hab => of_decide_eq_true hab)
    (List.sorted_mergeSort ?_ ?_ xs)
  · intro a b c h1 h2
    simp only [decide_eq_true_eq] at *
    exact le_trans h1 h2
  · intro a b
    simp only [Bool.or_eq_true, decide_eq_true_eq]
    exact le_total a b

/-- Reading the ascending-sorted samples at a lower index gives a smaller
value (defaults are irrelevant at in-bounds indices). -/
theorem sortedSpreads_getD_le (xs : List ℚ) (d₁ d₂ : ℚ) (i j : ℕ)
    (hij : i ≤ j) (hj : j < xs.length) :
    (sortedSpreads xs).getD i d₁ ≤ (sortedSpreads xs).getD j d₂ := by
  have hlen := sortedSpreads_length xs
  have hj2 : j < (sortedSpreads xs).length := by omega
  have hi2 : i < (sortedSpreads xs).length := by omega
  rw [getD_of_lt _ _ _ hi2, getD_of_lt _ _ _ hj2]
  rcases Nat.lt_or_ge i j with hlt | hge
  · have h := List.pairwise_iff_get.mp (sortedSpreads_pairwise xs) ⟨i, hi2⟩ ⟨j, hj2⟩ hlt
    simpa using h
  · have hij2 : i = j := by omega
    subst hij2
    exact le_refl _

/-- C5: on a non-empty sample the computed statistics are ordered:
`min ≤ median ≤ max` and `p75 ≤ p90` (the spec-modelled p75 against the
code's p90), and the p90 index `⌊n·0.9⌋` is in bounds. -/
theorem computeStats_order (xs : List ℚ) (k : String) (hne : xs ≠ []) :
    (computeStats xs k).min_spread_bps ≤ (computeStats xs k).median_spread_bps
    ∧ (computeStats xs k).median_spread_bps ≤ (computeStats xs k).max_spread_bps
    ∧ p75Of xs ≤ (computeStats xs k).p90_spread_bps
    ∧ p90IndexOf xs.length < xs.length := by
  have hn : 0 < xs.length := List.length_pos.mpr hne
  have hidx : p90IndexOf xs.length < xs.length := by
    unfold p90IndexOf
    omega
  rw [computeStats, if_neg hne]
  dsimp only
  refine ⟨?_, ?_, ?_, hidx⟩
  · simp only [medianOf]
    split_ifs with hpar
    · have h1 := sortedSpreads_getD_le xs 0 0 0 (xs.length / 2 - 1) (by omega) (by omega)
      have h2 := sortedSpreads_getD_le xs 0 0 0 (xs.length / 2) (by omega) (by omega)
      linarith
    · exact sortedSpreads_getD_le xs 0 0 0 (xs.length / 2) (by omega) (by omega)
  · simp only [medianOf]
    split_ifs with hpar
    · have h1 := sortedSpreads_getD_le xs 0 0 (xs.length / 2 - 1) (xs.length - 1)
        (by omega) (by omega)
      have h2 := sortedSpreads_getD_le xs 0 0 (xs.length / 2) (xs.length - 1)
        (by omega) (by omega)
      linarith
    · exact sortedSpreads_getD_le xs 0 0 (xs.length / 2) (xs.length - 1)
        (by omega) (by omega)
  · simp only [p75Of, p90Of]
    exact sortedSpreads_getD_le xs 0 _ (min (3 * xs.length / 4) (xs.length - 1))
      (p90IndexOf xs.length) (by unfold p90IndexOf; omega) hidx

/-- C5 witness: the theorem applied to the sample `[2, 1]`. -/
theorem computeStats_order_witness :
    ([2, 1] : List ℚ) ≠ []
    ∧ ((computeStats [2, 1] "w").min_spread_bps ≤ (computeStats [2, 1] "w").median_spread_bps
      ∧ (computeStats [2, 1] "w").median_spread_bps ≤ (computeStats [2, 1] "w").max_spread_bps
      ∧ p75Of [2, 1] ≤ (computeStats [2, 1] "w").p90_spread_bps
      ∧ p90IndexOf ([2, 1] : List ℚ).length < ([2, 1] : List ℚ).length) :=
  ⟨by simp, computeStats_order [2, 1] "w" (by simp)⟩

/-! ### Stable descending-mean ranking (for the ranked-buckets claim) -/

/-- The populated-bucket entry lists carry strictly increasing indices. -/
theorem entries_pairwise_fst (n : ℕ) (f : ℕ → Option (ℕ × BucketStat))
    (hf : ∀ h p, p ∈ f h → p.1 = h) :
    ((List.range n).filterMap f).Pairwise (fun a b => a.1 < b.1) := by
  rw [List.pairwise_filterMap]
  refine (List.pairwise_lt_range n).imp ?_
  intro a b hab x hx y hy
  rw [hf a x hx, hf b y hy]
  exact hab

theorem hourEntries_pairwise (data : List SpreadObservation) :
    (hourEntries data).Pairwise (fun a b => a.1 < b.1) := by
  unfold hourEntries
  apply entries_pairwise_fst
  intro h p hp
  split at hp
  · rw [← Option.mem_some_iff.mp hp]
  · exact absurd hp (by simp)

theorem dowEntries_pairwise (data : List SpreadObservation) :
    (dowEntries data).Pairwise (fun a b => a.1 < b.1) := by
  unfold dowEntries
  apply entries_pairwise_fst
  intro d p hp
  split at hp
  · rw [← Option.mem_some_iff.mp hp]
  · exact absurd hp (by simp)

/-- Stable mergeSort under the mean-only descending comparator of the
source, applied to a list with strictly increasing bucket indices, orders
the entries by descending mean and, within equal means, by ascending
index (stability keeps the original ascending-index enumeration). -/
theorem mergeSort_meanDesc_pairwise (l : List (ℕ × BucketStat))
    (hl : l.Pairwise (fun a b => a.1 < b.1)) :
    (l.mergeSort meanDescLE).Pairwise
      (fun a b => b.2.mean < a.2.mean ∨ (a.2.mean = b.2.mean ∧ a.1 < b.1)) := by
  have trans : ∀ a b c : ℕ × BucketStat,
      meanDescLE a b → meanDescLE b c → meanDescLE a c := by
    intro a b c h1 h2
    simp only [meanDescLE, decide_eq_true_eq] at *
    exact le_trans h2 h1
  have total : ∀ a b : ℕ × BucketStat, meanDescLE a b || meanDescLE b a := by
    intro a b
    simp only [meanDescLE, Bool.or_eq_true, decide_eq_true_eq]
    exact le_total b.2.mean a.2.mean
  have hsorted := List.sorted_mergeSort trans total l
  have hperm := List.mergeSort_perm l meanDescLE
  have hndl : l.Nodup := hl.imp (fun hab heq => by rw [heq] at hab; exact lt_irrefl _ hab)
  have hnds : (l.mergeSort meanDescLE).Nodup := hperm.nodup_iff.mpr hndl
  have hndp : (l.mergeSort meanDescLE).Pairwise (fun a b => a ≠ b) := hnds
  rw [List.pairwise_iff_forall_sublist]
  intro a b hab
  have hle : b.2.mean ≤ a.2.mean := by
    have h := List.pairwise_iff_forall_sublist.mp hsorted hab
    simpa [meanDescLE] using h
  rcases lt_or_eq_of_le hle with hlt | heq
  · exact Or.inl hlt
  · refine Or.inr ⟨heq.symm, ?_⟩
    have hne : a ≠ b := List.pairwise_iff_forall_sublist.mp hndp hab
    have ham : a ∈ l := hperm.mem_iff.mp (hab.subset (by simp))
    have hbm : b ∈ l := hperm.mem_iff.mp (hab.subset (by simp))
    have hsym : l.Pairwise (fun x y => x.1 < y.1 ∨ y.1 < x.1) := hl.imp Or.inl
    have htri := hsym.forall (fun x y h => Or.symm h) ham hbm hne
    rcases htri with hlt2 | hgt
    · exact hlt2
    · exfalso
      have hasym : ∀ x y : ℕ × BucketStat, x.1 < y.1 → ¬ y.1 < x.1 := by
        intro x y h1 h2
        omega
      have hsub : List.Sublist [b, a] l := pair_sublist_of_mem hasym hgt hl hbm ham
      have hpw : List.Pairwise (fun x y => meanDescLE x y = true) [b, a] := by
        simp [meanDescLE, heq]
      have hsub2 := List.sublist_mergeSort trans total hpw hsub
      exact hne (eq_of_pair_sublists hnds hab hsub2)

/-- C8 counterexample: two hour buckets with equal mean spread `10`, where
hour 0 has 1 sample and hour 1 has 2 samples.  The spec's tie-break
(descending sample count before ascending index) ranks hour 1 first, but
the code sorts by mean only, and the stable sort keeps ascending index
order: `best_hours = [0, 1]`, not `[1, 0]`. -/
theorem bestHours_tie_cex :
    (computeMarketStats "m"
        [⟨18000000, 10⟩, ⟨21600000, 10⟩, ⟨21601000, 10⟩]).best_hours = [0, 1]
    ∧ claimedBestHours [⟨18000000, 10⟩, ⟨21600000, 10⟩, ⟨21601000, 10⟩] = [1, 0]
    ∧ ([0, 1] : List ℕ) ≠ [1, 0] := by
  have hent : hourEntries [⟨18000000, 10⟩, ⟨21600000, 10⟩, ⟨21601000, 10⟩]
      = [(0, ⟨10, 0, 1⟩), (1, ⟨10, 0, 2⟩)] := by
    have hr : List.range 24
        = [0, 1, 2, 3, 4, 5, 6, 7, 8, 9, 10, 11, 12, 13, 14, 15, 16, 17, 18,
           19, 20, 21, 22, 23] := by rfl
    rw [hourEntries, hr]
    norm_num [List.filterMap_cons, hourBucket, getHourEST, getUTCHours]
    norm_num [bucketStatOf, meanOf, varianceOf]
  refine ⟨?_, ?_, by simp⟩
  · show bestHours _ = _
    rw [bestHours, rankedHourEntries, hent, mergeSort_pair]
    norm_num [meanDescLE]
  · rw [claimedBestHours, hent, mergeSort_pair]
    norm_num [claimedRankLE]

/-- C8 (amended): the ranked bucket sequences (best hours and best days)
are sorted by descending mean spread, with ties broken by ascending bucket
index — the order in which `Object.entries` enumerates the buckets and
which the stable sort preserves; the sample count plays no part in the
order (the spec's count tie-break is refuted by the counterexample). -/
theorem rankedBuckets_sorted (data : List SpreadObservation) :
    (rankedHourEntries data).Pairwise
      (fun a b => b.2.mean < a.2.mean ∨ (a.2.mean = b.2.mean ∧ a.1 < b.1))
    ∧ (rankedDowEntries data).Pairwise
      (fun a b => b.2.mean < a.2.mean ∨ (a.2.mean = b.2.mean ∧ a.1 < b.1)) :=
  ⟨mergeSort_meanDesc_pairwise _ (hourEntries_pairwise data),
   mergeSort_meanDesc_pairwise _ (dowEntries_pairwise data)⟩

end ArbOppity
